import Mathlib

/-!
Shallow embedding of the idempotent repackaging engine of
`src/libs/plugins/serverless-idempotency-helper/index.js`.

The plugin's `repackFunctions` (lines 79-146) post-processes a list of zip
archives: it sets `process.env.ZIPOPT = "-D"` (line 84), recreates a scratch
root `.repack` (lines 101-102), and for each archive extracts it (line 113),
rewrites the timestamps of every node matched by `glob "**/*"` to a fixed
date (lines 87, 118-125), rebuilds a staging zip via `bestzip` (lines
130-138, exiting the process on failure), and copies the staging file over
the original with `fs.copyFileSync` (line 141); after the loop it removes
the scratch root (line 145).  `getFunctionArchives` (lines 57-77) and
`repackAnyOtherZips` (lines 32-48) locate the archives to process.

External tools invoked by the source (extract-zip, glob, Info-ZIP `zip` via
bestzip, Node's `fs`) are modelled by their documented behaviour as invoked
here; behaviour the environment controls (which archives are unreadable,
whether the zip tool fails, the wall-clock metadata written during
extraction, the zip tool's filesystem traversal order, whether the
best-effort `rmdir` reports an error) is an explicit `Oracle` parameter.
-/

namespace IdempotencyHelper

/-- Raw content bytes of an archived file. -/
abbrev Bytes := List Nat

/-- One entry record inside a zip file: relative path, content bytes,
directory flag, and the stored modification timestamp.  The byte-level
encoding of a zip file is determined by the ordered list of its entry
records (tool version held fixed, as the spec treats it as an environmental
constant), so two archives are byte-identical iff their record lists are
equal. -/
structure ZipRecord where
  relativePath : String
  content : Bytes
  isDirectory : Bool
  mtime : Int
deriving Repr, DecidableEq

/-- The logical identity of a record, ignoring packaging-level metadata:
`(relativePath, contentBytes, isDirectory)`. -/
def ZipRecord.logical (r : ZipRecord) : String × Bytes × Bool :=
  (r.relativePath, r.content, r.isDirectory)

/-- A filesystem node of the extracted scratch subtree: relative path,
content bytes, directory flag, and the node's access and modification
timestamps. -/
structure TreeNode where
  relativePath : String
  content : Bytes
  isDirectory : Bool
  atime : Int
  mtime : Int
deriving Repr, DecidableEq

/-- `await extract(zips[index], { dir: extractDir })` (index.js line 113,
extract-zip): unpacks every record of the archive into the scratch subtree,
preserving relative paths and content bytes.  The on-disk timestamps after
extraction are whatever the extracting run produced (`t`, an oracle value:
wall-clock time or entry metadata, deliberately not trusted by the source,
which normalizes them right afterwards). -/
def extractArchive (t : Int) (records : List ZipRecord) : List TreeNode :=
  records.map fun r => ⟨r.relativePath, r.content, r.isDirectory, t, t⟩

/-- `glob.sync(extractDir + "/**/*", { dot: true, silent: true, follow: true })`
(index.js lines 118-122): the pattern `**/*` with `dot: true` and no `nodir`
option matches every node under the tree - directories included. -/
def globStarMatches (tree : List TreeNode) : List TreeNode :=
  tree

/-- `const time = new Date(1990, 1, 1)` (index.js line 87): 1 February 1990,
00:00 in the process's local timezone; a fixed instant within any one run,
modelled as its epoch-seconds value at offset zero. -/
def fixedRepackTime : Int := 633830400

/-- `files.forEach((file) => fs.utimesSync(file, time, time))` (index.js
lines 123-125): every node matched by the glob gets `atime = mtime = time`.
Since `globStarMatches` matches the whole tree, mapping the update over the
matches is mapping it over the tree. -/
def normalizeTree (time : Int) (tree : List TreeNode) : List TreeNode :=
  (globStarMatches tree).map fun n =>
    ⟨n.relativePath, n.content, n.isDirectory, time, time⟩

/-- The process environment, an association of variable names to values. -/
abbrev Env := List (String × String)

/-- `process.env.X = v`: later lookups of `X` see `v`. -/
def envSet (env : Env) (k v : String) : Env :=
  (k, v) :: env.filter fun kv => !(kv.1 == k)

/-- The argument object passed to `zip` (index.js lines 130-134).  Note that
no entry-ordering or directory-omission option appears here: directory
omission is controlled only by the ambient `ZIPOPT` environment variable
(set at line 84, documented at lines 82-83 and 128-129). -/
structure ZipArgs where
  source : String
  cwd : String
  destination : String
deriving Repr, DecidableEq

/-- The concrete `zipArgs` built at lines 130-134 for a job. -/
def zipArgsFor (funcName extractDir : String) : ZipArgs :=
  { source := ".", cwd := extractDir,
    destination := "../" ++ funcName ++ ".zip.new" }

/-- Whether the zip tool omits directory entries: exactly when the ambient
environment variable `ZIPOPT` is `-D` (see the zip man page referenced at
line 83; the variable is set at line 84). -/
def zipOmitsDirs (env : Env) : Bool :=
  env.lookup "ZIPOPT" == some "-D"

/-- The record list (hence the bytes) of the archive written by
`zip({ source: ".", cwd: extractDir, destination: ... })` (index.js line
135, bestzip over Info-ZIP `zip -r`): the tool walks the extracted tree in
its filesystem traversal order (`walk` - the source performs no sorting of
entries, so the order is whatever the tool's directory walk yields), omits
directory entries iff `ZIPOPT` is `-D`, and stores each node's mtime as the
entry timestamp. -/
def zipArchive (env : Env) (walk : List TreeNode) : List ZipRecord :=
  let nodes := if zipOmitsDirs env then walk.filter (fun n => !n.isDirectory)
               else walk
  nodes.map fun n => ⟨n.relativePath, n.content, n.isDirectory, n.mtime⟩

/-- The zip files on disk: an association of archive paths to the record
lists of the zip files stored there. -/
abbrev Disk := List (String × List ZipRecord)

/-- The final disk state of `fs.copyFileSync(staging, zips[index])` (index.js
line 141): the archive at the target path is replaced by the staging
archive's records. -/
def diskWrite (disk : Disk) (p : String) (v : List ZipRecord) : Disk :=
  disk.map fun kv => if kv.1 = p then (kv.1, v) else kv

/-- Observable contents of the target path over the course of
`fs.copyFileSync(src, dest)` (index.js line 141): the destination is opened
with truncation and then the source bytes are written, so a concurrent
reader of the target path can observe, in order: the old contents, a
zero-length file (represented by the empty record list), and the new
contents; an interruption after truncation leaves the truncated state. -/
def copyFileStates (destOld newRecords : List ZipRecord) :
    List (List ZipRecord) :=
  [destOld, [], newRecords]

/-- How the staging archive replaces the original. -/
inductive SwapMethod where
  | rename
  | copyInPlace
deriving Repr, DecidableEq

/-- The replacement mechanism the source uses (index.js line 141):
`fs.copyFileSync`, an in-place copy; no rename is attempted anywhere. -/
def swapMethodUsed : SwapMethod := .copyInPlace

/-- Behaviour outside the source's control, fixed for one run: whether
extraction of a given archive path fails (malformed or unreadable archive,
line 113), whether the zip tool fails for a given job (line 135), the
metadata written during extraction, the zip tool's filesystem traversal
order over an extracted tree, and whether the best-effort `fs.rmdir`
reports an error to its callback (the callbacks at lines 101 and 145 ignore
it). -/
structure Oracle where
  extractFails : String → Bool
  zipFails : String → Bool
  extractTime : Int
  traverse : List TreeNode → List TreeNode
  rmdirErr : Bool

/-- How one invocation of `repackFunctions` ends. -/
inductive RunOutcome where
  /-- The `for` loop finished every iteration; the final `fs.rmdir` at line
  145 was reached. -/
  | completed
  /-- `await extract(...)` (line 113) rejected for this path; there is no
  try/catch around it, so the rejection propagates out of `repackFunctions`
  and aborts the run before the remaining archives are processed. -/
  | extractionThrown (path : String)
  /-- `zip(...)` (line 135) rejected for this path; the `.catch` handler
  (lines 135-138) logs the error and calls `process.exit(1)`. -/
  | processExited (path : String)
deriving Repr, DecidableEq

/-- The observable result of one invocation of `repackFunctions`:
how it ended, the final zip files on disk, the chronological log of
`copyFileSync` writes `(targetPath, records)` (line 141), the observable
target-path states during each of those writes, whether the scratch-root
removal at line 145 was reached, and the process environment afterwards. -/
structure RunResult where
  outcome : RunOutcome
  disk : Disk
  written : List (String × List ZipRecord)
  observations : List (String × List (List ZipRecord))
  scratchRemoved : Bool
  env : Env
deriving Repr

/-- The `for` loop of `repackFunctions` (index.js lines 105-142) followed by
the final scratch-root removal (line 145).  `written` and `obs` accumulate
the copyFileSync log in reverse.  Each iteration: extract the archive (113;
a missing or unreadable archive rejects), normalize timestamps (118-125),
rebuild the staging archive (130-138; on failure the process exits), and
copy the staging archive over the target (141). -/
def repackLoop (ora : Oracle) (env : Env) :
    Disk → List (String × List ZipRecord) →
    List (String × List (List ZipRecord)) → List String → RunResult
  | disk, written, obs, [] =>
    { outcome := .completed, disk := disk, written := written.reverse,
      observations := obs.reverse, scratchRemoved := true, env := env }
  | disk, written, obs, z :: rest =>
    match disk.lookup z with
    | none =>
      { outcome := .extractionThrown z, disk := disk,
        written := written.reverse, observations := obs.reverse,
        scratchRemoved := false, env := env }
    | some records =>
      if ora.extractFails z then
        { outcome := .extractionThrown z, disk := disk,
          written := written.reverse, observations := obs.reverse,
          scratchRemoved := false, env := env }
      else if ora.zipFails z then
        { outcome := .processExited z, disk := disk,
          written := written.reverse, observations := obs.reverse,
          scratchRemoved := false, env := env }
      else
        let fresh := zipArchive env (ora.traverse
          (normalizeTree fixedRepackTime (extractArchive ora.extractTime records)))
        repackLoop ora env (diskWrite disk z fresh) ((z, fresh) :: written)
          ((z, copyFileStates records fresh) :: obs) rest

/-- `repackFunctions(archives)` (index.js lines 79-146): sets
`process.env.ZIPOPT = "-D"` (line 84) - never unset afterwards - removes any
stale scratch root and recreates it (lines 101-102; the stale removal only
touches `.repack`, which holds no tracked zip file at this point), then runs
the per-archive loop. -/
def repackFunctions (ora : Oracle) (env0 : Env) (disk : Disk)
    (zips : List String) : RunResult :=
  repackLoop ora (envSet env0 "ZIPOPT" "-D") disk [] [] zips

/-- `getFunctionArchives` (index.js lines 57-77): with an explicit
`--function` option only that function's archive; otherwise, under
individual packaging one archive per function name, else the single
service archive. -/
def getFunctionArchives (dotServerlessDir : String)
    (optFunction : Option String) (allFunctions : List String)
    (individually : Bool) (serviceName : String) : List String :=
  let functionNames := match optFunction with
    | some f => [f]
    | none => allFunctions
  if individually then
    functionNames.map fun name => dotServerlessDir ++ "/" ++ name ++ ".zip"
  else
    [dotServerlessDir ++ "/" ++ serviceName ++ ".zip"]

/-- The filter of `repackAnyOtherZips` (index.js line 45):
glob-discovered zips already in the explicit list are excluded. -/
def otherZips (functionArchives globResults : List String) : List String :=
  globResults.filter fun el => !(functionArchives.contains el)

/-- The archives processed over the two package hooks (index.js lines
14-20): `repackAllFunctions` (line 29) repacks the explicit list, and the
later hook `repackAnyOtherZips` (lines 40-47) repacks the glob-discovered
zips not already in that list, in the order glob returned them. -/
def locatedArchives (functionArchives globResults : List String) :
    List String :=
  functionArchives ++ otherZips functionArchives globResults

/-! ### Basic lemmas about the environment, the zip step and disk writes -/

lemma lookup_envSet_self (env : Env) (k v : String) :
    (envSet env k v).lookup k = some v := by
  simp [envSet, List.lookup]

lemma zipOmitsDirs_envSet (env : Env) :
    zipOmitsDirs (envSet env "ZIPOPT" "-D") = true := by
  simp [zipOmitsDirs, lookup_envSet_self]

lemma zipArchive_omit (env : Env) (h : zipOmitsDirs env = true)
    (walk : List TreeNode) :
    zipArchive env walk = (walk.filter fun n => !n.isDirectory).map
      fun n => ⟨n.relativePath, n.content, n.isDirectory, n.mtime⟩ := by
  simp [zipArchive, h]

lemma zipArchive_dirFree {env : Env} (h : zipOmitsDirs env = true)
    {walk : List TreeNode} {r : ZipRecord} (hr : r ∈ zipArchive env walk) :
    r.isDirectory = false := by
  rw [zipArchive_omit env h] at hr
  simp only [List.mem_map, List.mem_filter] at hr
  obtain ⟨n, ⟨-, hn⟩, rfl⟩ := hr
  simpa using hn

lemma lookup_cons {α : Type} (q a : String) (b : α) (rest : List (String × α)) :
    List.lookup q ((a, b) :: rest) =
      if q == a then some b else List.lookup q rest := by
  rw [List.lookup]
  cases h : (q == a) <;> simp

lemma diskWrite_cons (a : String) (b : List ZipRecord) (rest : Disk)
    (p : String) (v : List ZipRecord) :
    diskWrite ((a, b) :: rest) p v =
      (if a = p then (a, v) else (a, b)) :: diskWrite rest p v := rfl

lemma lookup_diskWrite_ne {q p : String} (h : q ≠ p) (v : List ZipRecord) :
    ∀ disk : Disk, (diskWrite disk p v).lookup q = disk.lookup q := by
  intro disk
  induction disk with
  | nil => rfl
  | cons kv rest ih =>
    obtain ⟨a, b⟩ := kv
    rw [diskWrite_cons]
    by_cases hap : a = p
    · subst hap
      have hqa : (q == a) = false := by simpa using h
      rw [if_pos rfl, lookup_cons, lookup_cons, hqa]
      simpa using ih
    · rw [if_neg hap, lookup_cons, lookup_cons]
      cases hqa : (q == a) <;> simp [hqa, ih]

lemma lookup_diskWrite_self {p : String} (v : List ZipRecord) :
    ∀ disk : Disk, (disk.lookup p).isSome = true →
      (diskWrite disk p v).lookup p = some v := by
  intro disk
  induction disk with
  | nil => intro h; simp [List.lookup] at h
  | cons kv rest ih =>
    obtain ⟨a, b⟩ := kv
    intro h
    rw [diskWrite_cons]
    by_cases hap : a = p
    · subst hap
      rw [if_pos rfl, lookup_cons]
      simp
    · have hpa : (p == a) = false := by simpa using Ne.symm hap
      rw [if_neg hap, lookup_cons, hpa]
      rw [lookup_cons, hpa] at h
      simpa using ih (by simpa using h)

lemma isSome_lookup_diskWrite (p : String) (v : List ZipRecord) (q : String) :
    ∀ disk : Disk,
      ((diskWrite disk p v).lookup q).isSome = (disk.lookup q).isSome := by
  intro disk
  induction disk with
  | nil => rfl
  | cons kv rest ih =>
    obtain ⟨a, b⟩ := kv
    rw [diskWrite_cons]
    by_cases hap : a = p
    · subst hap
      rw [if_pos rfl, lookup_cons, lookup_cons]
      cases hqa : (q == a) <;> simp [hqa, ih]
    · rw [if_neg hap, lookup_cons, lookup_cons]
      cases hqa : (q == a) <;> simp [hqa, ih]

/-! ### Lemmas about the repack loop -/

lemma repackLoop_env (ora : Oracle) (env : Env) :
    ∀ (zips : List String) (disk : Disk) (w : List (String × List ZipRecord))
      (o : List (String × List (List ZipRecord))),
      (repackLoop ora env disk w o zips).env = env := by
  intro zips
  induction zips with
  | nil => intro disk w o; rfl
  | cons z rest ih =>
    intro disk w o
    rw [repackLoop]
    cases hz : disk.lookup z with
    | none => rfl
    | some records =>
      cases he : ora.extractFails z <;> cases hf : ora.zipFails z <;>
        simp [he, hf, ih]

lemma repackLoop_zipFails_of_exit (ora : Oracle) (env : Env) (z : String) :
    ∀ (zips : List String) (disk : Disk) w o,
      (repackLoop ora env disk w o zips).outcome = .processExited z →
      ora.zipFails z = true := by
  intro zips
  induction zips with
  | nil => intro disk w o h; simp [repackLoop] at h
  | cons z' rest ih =>
    intro disk w o h
    rw [repackLoop] at h
    cases hz : disk.lookup z' with
    | none => rw [hz] at h; simp at h
    | some records =>
      rw [hz] at h
      cases he : ora.extractFails z' <;> cases hf : ora.zipFails z' <;>
        simp [he, hf] at h
      · exact ih _ _ _ h
      · obtain ⟨rfl⟩ := h
        exact hf

lemma repackLoop_scratch (ora : Oracle) (env : Env) :
    ∀ (zips : List String) (disk : Disk) w o,
      (repackLoop ora env disk w o zips).scratchRemoved = true ↔
        (repackLoop ora env disk w o zips).outcome = .completed := by
  intro zips
  induction zips with
  | nil => intro disk w o; simp [repackLoop]
  | cons z rest ih =>
    intro disk w o
    rw [repackLoop]
    cases hz : disk.lookup z with
    | none => simp
    | some records =>
      cases he : ora.extractFails z <;> cases hf : ora.zipFails z <;>
        simp [he, hf, ih]

lemma repackLoop_written_mem (ora : Oracle) (env : Env)
    (q : String × List ZipRecord) :
    ∀ (zips : List String) (disk : Disk) w o,
      q ∈ (repackLoop ora env disk w o zips).written →
      q ∈ w ∨ ∃ walk, q.2 = zipArchive env walk := by
  intro zips
  induction zips with
  | nil => intro disk w o h; simp [repackLoop] at h; exact Or.inl h
  | cons z rest ih =>
    intro disk w o h
    rw [repackLoop] at h
    cases hz : disk.lookup z with
    | none => rw [hz] at h; simp at h; exact Or.inl h
    | some records =>
      rw [hz] at h
      cases he : ora.extractFails z <;> cases hf : ora.zipFails z <;>
        simp [he, hf] at h
      · rcases ih _ _ _ h with hw | hs
        · rcases List.mem_cons.mp hw with hq | hw
          · exact Or.inr ⟨ora.traverse (normalizeTree fixedRepackTime
              (extractArchive ora.extractTime records)), by rw [hq]⟩
          · exact Or.inl hw
        · exact Or.inr hs
      · exact Or.inl h
      · exact Or.inl h
      · exact Or.inl h

lemma repackLoop_obs_mem (ora : Oracle) (env : Env)
    (q : String × List (List ZipRecord)) :
    ∀ (zips : List String) (disk : Disk) w o,
      q ∈ (repackLoop ora env disk w o zips).observations →
      q ∈ o ∨ ∃ old new, q.2 = copyFileStates old new := by
  intro zips
  induction zips with
  | nil => intro disk w o h; simp [repackLoop] at h; exact Or.inl h
  | cons z rest ih =>
    intro disk w o h
    rw [repackLoop] at h
    cases hz : disk.lookup z with
    | none => rw [hz] at h; simp at h; exact Or.inl h
    | some records =>
      rw [hz] at h
      cases he : ora.extractFails z <;> cases hf : ora.zipFails z <;>
        simp [he, hf] at h
      · rcases ih _ _ _ h with ho | hs
        · rcases List.mem_cons.mp ho with hq | ho
          · exact Or.inr ⟨records, zipArchive env (ora.traverse
              (normalizeTree fixedRepackTime
                (extractArchive ora.extractTime records))), by rw [hq]⟩
          · exact Or.inl ho
        · exact Or.inr hs
      · exact Or.inl h
      · exact Or.inl h
      · exact Or.inl h

lemma repackLoop_exit_preserves (ora : Oracle) (env : Env) (z : String) :
    ∀ (zips : List String) (disk : Disk) w o,
      (repackLoop ora env disk w o zips).outcome = .processExited z →
      (repackLoop ora env disk w o zips).disk.lookup z = disk.lookup z ∧
      (∀ v, (z, v) ∈ (repackLoop ora env disk w o zips).written →
        (z, v) ∈ w) := by
  intro zips
  induction zips with
  | nil => intro disk w o h; simp [repackLoop] at h
  | cons z' rest ih =>
    intro disk w o h
    have hzf : ora.zipFails z = true :=
      repackLoop_zipFails_of_exit ora env z _ _ _ _ h
    rw [repackLoop] at h ⊢
    cases hz : disk.lookup z' with
    | none => rw [hz] at h; simp at h
    | some records =>
      rw [hz] at h
      cases he : ora.extractFails z' <;> cases hf : ora.zipFails z' <;>
        simp [he, hf] at h ⊢
      · have hne : z ≠ z' := fun hzz => by rw [hzz, hf] at hzf; cases hzf
        obtain ⟨hd, hw⟩ := ih _ _ _ h
        refine ⟨hd.trans (lookup_diskWrite_ne hne _ _), fun v hv => ?_⟩
        rcases List.mem_cons.mp (hw v hv) with hq | hq
        · exact absurd (congrArg Prod.fst hq) (by simpa using hne)
        · exact hq

lemma repackLoop_front (ora : Oracle) (env : Env) :
    ∀ (pre : List String) (disk : Disk) w o (rest : List String),
      (∀ p ∈ pre, ora.extractFails p = false ∧ ora.zipFails p = false ∧
        (disk.lookup p).isSome = true) →
      ∃ (disk' : Disk) (pw : List (String × List ZipRecord))
        (po : List (String × List (List ZipRecord))),
        repackLoop ora env disk w o (pre ++ rest) =
          repackLoop ora env disk' (pw ++ w) (po ++ o) rest ∧
        pw.reverse.map Prod.fst = pre ∧
        (∀ q, q ∉ pre → disk'.lookup q = disk.lookup q) ∧
        (∀ q, (disk'.lookup q).isSome = (disk.lookup q).isSome) := by
  intro pre
  induction pre with
  | nil =>
    intro disk w o rest _
    exact ⟨disk, [], [], rfl, rfl, fun q _ => rfl, fun q => rfl⟩
  | cons p pre ih =>
    intro disk w o rest hpre
    obtain ⟨hef, hzf, hsome⟩ := hpre p (List.mem_cons_self p pre)
    obtain ⟨records, hrec⟩ := Option.isSome_iff_exists.mp hsome
    have hstep : repackLoop ora env disk w o ((p :: pre) ++ rest) =
        repackLoop ora env
          (diskWrite disk p (zipArchive env (ora.traverse (normalizeTree
            fixedRepackTime (extractArchive ora.extractTime records)))))
          ((p, zipArchive env (ora.traverse (normalizeTree fixedRepackTime
            (extractArchive ora.extractTime records)))) :: w)
          ((p, copyFileStates records (zipArchive env (ora.traverse
            (normalizeTree fixedRepackTime
              (extractArchive ora.extractTime records))))) :: o)
          (pre ++ rest) := by
      rw [List.cons_append, repackLoop, hrec]
      simp [hef, hzf]
    obtain ⟨disk', pw, po, heq, hmap, hunt, hsm⟩ :=
      ih (diskWrite disk p (zipArchive env (ora.traverse (normalizeTree
            fixedRepackTime (extractArchive ora.extractTime records)))))
        ((p, zipArchive env (ora.traverse (normalizeTree fixedRepackTime
            (extractArchive ora.extractTime records)))) :: w)
        ((p, copyFileStates records (zipArchive env (ora.traverse
            (normalizeTree fixedRepackTime
              (extractArchive ora.extractTime records))))) :: o)
        rest
        (fun p' hp' => by
          obtain ⟨h1, h2, h3⟩ := hpre p' (List.mem_cons_of_mem p hp')
          exact ⟨h1, h2, (isSome_lookup_diskWrite _ _ _ _).trans h3⟩)
    refine ⟨disk',
      pw ++ [(p, zipArchive env (ora.traverse (normalizeTree fixedRepackTime
        (extractArchive ora.extractTime records))))],
      po ++ [(p, copyFileStates records (zipArchive env (ora.traverse
        (normalizeTree fixedRepackTime
          (extractArchive ora.extractTime records)))))],
      ?_, ?_, ?_, ?_⟩
    · rw [hstep, heq, List.append_assoc, List.append_assoc,
        List.singleton_append, List.singleton_append]
    · rw [List.reverse_append, List.reverse_singleton, List.singleton_append,
        List.map_cons, hmap]
    · intro q hq
      have hqp : q ≠ p := fun hqq => hq (hqq ▸ List.mem_cons_self p pre)
      have hqpre : q ∉ pre := fun hqq => hq (List.mem_cons_of_mem p hqq)
      exact (hunt q hqpre).trans (lookup_diskWrite_ne hqp _ _)
    · intro q
      exact (hsm q).trans (isSome_lookup_diskWrite _ _ _ _)

lemma repackLoop_rmdirErr (e zf : String → Bool) (t : Int)
    (tr : List TreeNode → List TreeNode) (b b' : Bool) (env : Env) :
    ∀ (zips : List String) (disk : Disk) w o,
      repackLoop ⟨e, zf, t, tr, b⟩ env disk w o zips =
        repackLoop ⟨e, zf, t, tr, b'⟩ env disk w o zips := by
  intro zips
  induction zips with
  | nil => intro disk w o; rfl
  | cons z rest ih =>
    intro disk w o
    rw [repackLoop, repackLoop]
    cases hz : disk.lookup z with
    | none => rfl
    | some records =>
      cases he : e z <;> cases hf : zf z <;> simp [he, hf, ih]

/-! ### Concrete fixtures used by counterexamples and witnesses -/

/-- An environment with no failures whose zip tool walks the extracted tree
in extraction order. -/
def oraOK : Oracle :=
  { extractFails := fun _ => false, zipFails := fun _ => false,
    extractTime := 555, traverse := id, rmdirErr := false }

/-- Like `oraOK`, except the zip tool's filesystem walk visits the extracted
tree in the reverse order. -/
def oraRev : Oracle :=
  { oraOK with traverse := List.reverse }

/-- Like `oraOK`, except extraction of `b.zip` fails (malformed archive). -/
def oraExtractFailB : Oracle :=
  { oraOK with extractFails := fun p => p == "b.zip" }

/-- Like `oraOK`, except the zip tool fails for the job of `p.zip`. -/
def oraZipFailP : Oracle :=
  { oraOK with zipFails := fun p => p == "p.zip" }

/-- A file entry `a.txt`. -/
def recA : ZipRecord := ⟨"a.txt", [1, 2], false, 5⟩

/-- A file entry `b/file.txt`. -/
def recB : ZipRecord := ⟨"b/file.txt", [3], false, 7⟩

/-- A directory-only entry `d`. -/
def recD : ZipRecord := ⟨"d", [], true, 5⟩

/-- A file entry `d/f.txt` below the directory `d`. -/
def recF : ZipRecord := ⟨"d/f.txt", [4], false, 6⟩

/-- Three archives on disk, used for batch counterexamples. -/
def diskABC : Disk := [("a.zip", [recA]), ("b.zip", [recB]), ("c.zip", [recF])]

/-! ### The claims -/

set_option maxRecDepth 4096

/-- Claim C10: every invocation of the repack operation mutates the
process-global environment variable `ZIPOPT` to `-D`, the mutation persists
after the operation returns (on every exit path), and the compressor's
directory-omission behaviour flows through this ambient global: under the
persisted environment, any later zip invocation in the same process omits
directory entries. -/
theorem claim_C10 (ora : Oracle) (env0 : Env) (disk : Disk)
    (zips : List String) :
    (repackFunctions ora env0 disk zips).env.lookup "ZIPOPT" = some "-D"
    ∧ ∀ walk : List TreeNode,
        zipArchive (repackFunctions ora env0 disk zips).env walk
          = (walk.filter fun n => !n.isDirectory).map
              fun n => ⟨n.relativePath, n.content, n.isDirectory, n.mtime⟩ := by
  have henv : (repackFunctions ora env0 disk zips).env =
      envSet env0 "ZIPOPT" "-D" :=
    repackLoop_env ora _ zips disk [] []
  constructor
  · rw [henv]
    exact lookup_envSet_self env0 "ZIPOPT" "-D"
  · intro walk
    rw [henv]
    exact zipArchive_omit _ (zipOmitsDirs_envSet env0) walk

/-- Claim C3: every archive rebuilt by the repack operation contains no
directory-only entries - every record of every archive the engine writes
over a target path has its directory flag cleared, even when the source
archive contained directory entries. -/
theorem claim_C3 (ora : Oracle) (env0 : Env) (disk : Disk)
    (zips : List String) (p : String) (recs : List ZipRecord) (r : ZipRecord)
    (hw : (p, recs) ∈ (repackFunctions ora env0 disk zips).written)
    (hr : r ∈ recs) : r.isDirectory = false := by
  rw [repackFunctions] at hw
  rcases repackLoop_written_mem ora (envSet env0 "ZIPOPT" "-D") (p, recs)
      zips disk [] [] hw with h | ⟨walk, hwalk⟩
  · simp at h
  · have hrecs : recs = zipArchive (envSet env0 "ZIPOPT" "-D") walk := hwalk
    exact zipArchive_dirFree (zipOmitsDirs_envSet env0) (hrecs ▸ hr)

/-- Witness for C3: repacking an archive that contains the directory entry
`d` and the file `d/f.txt` rebuilds it as the single file record `d/f.txt`,
whose directory flag is cleared. -/
theorem claim_C3_witness :
    (⟨"d/f.txt", [4], false, fixedRepackTime⟩ : ZipRecord).isDirectory
      = false :=
  claim_C3 oraOK [] [("p.zip", [recD, recF])] ["p.zip"] "p.zip"
    [⟨"d/f.txt", [4], false, fixedRepackTime⟩]
    ⟨"d/f.txt", [4], false, fixedRepackTime⟩ (by decide) (by decide)

/-- Claim C5: if the archive rebuild step fails (the zip tool rejects,
`CompressionError`), the run exits before the swap, so the original archive
at the target path is unchanged on disk and no copyFileSync write for that
archive ever happened. -/
theorem claim_C5 (ora : Oracle) (env0 : Env) (disk : Disk)
    (zips : List String) (z : String)
    (h : (repackFunctions ora env0 disk zips).outcome = .processExited z) :
    (repackFunctions ora env0 disk zips).disk.lookup z = disk.lookup z
    ∧ ∀ v, (z, v) ∉ (repackFunctions ora env0 disk zips).written := by
  rw [repackFunctions] at h ⊢
  obtain ⟨hd, hw⟩ := repackLoop_exit_preserves ora (envSet env0 "ZIPOPT" "-D")
    z zips disk [] [] h
  exact ⟨hd, fun v hv => by simpa using hw v hv⟩

/-- Witness for C5: a run in which the zip tool fails for `p.zip` leaves
`p.zip` byte-identical to its pre-run state. -/
theorem claim_C5_witness :
    (repackFunctions oraZipFailP [] [("p.zip", [recA])] ["p.zip"]).disk.lookup
        "p.zip" = ([("p.zip", [recA])] : Disk).lookup "p.zip"
    ∧ ∀ v, ("p.zip", v) ∉
        (repackFunctions oraZipFailP [] [("p.zip", [recA])] ["p.zip"]).written :=
  claim_C5 oraZipFailP [] [("p.zip", [recA])] ["p.zip"] "p.zip" (by decide)

/-- Counterexample to C7: on the exit path where extraction fails, the
scratch root is not removed before the operation returns - the final
`fs.rmdir` of the scratch root (line 145) is never reached, contradicting
"removed on every exit path". -/
theorem claim_C7_counterexample :
    (repackFunctions oraExtractFailB [] [("b.zip", [recB])] ["b.zip"]).outcome
      = .extractionThrown "b.zip"
    ∧ (repackFunctions oraExtractFailB [] [("b.zip", [recB])]
        ["b.zip"]).scratchRemoved = false := by
  decide

/-- Claim C7 as amended: the scratch root removal is reached exactly on the
exit path where every job completed; on the extraction-failure and
zip-failure exit paths the scratch root is left behind.  A failure of the
cleanup itself is never surfaced: the run's result is the same whether or
not `rmdir` reports an error to its (ignoring) callback. -/
theorem claim_C7_amended (ora : Oracle) (env0 : Env) (disk : Disk)
    (zips : List String) :
    ((repackFunctions ora env0 disk zips).scratchRemoved = true ↔
      (repackFunctions ora env0 disk zips).outcome = .completed)
    ∧ ∀ b : Bool,
        repackFunctions
            ⟨ora.extractFails, ora.zipFails, ora.extractTime, ora.traverse, b⟩
            env0 disk zips
          = repackFunctions ora env0 disk zips := by
  constructor
  · exact repackLoop_scratch ora _ zips disk [] []
  · intro b
    rw [repackFunctions, repackFunctions]
    cases ora with
    | mk e zf t tr r => exact repackLoop_rmdirErr e zf t tr b r _ zips disk [] []

lemma repackFunctions_single (ora : Oracle) (env0 : Env) (disk : Disk)
    (z : String) (recs : List ZipRecord) (hr : disk.lookup z = some recs)
    (he : ora.extractFails z = false) (hf : ora.zipFails z = false) :
    repackFunctions ora env0 disk [z] =
      { outcome := .completed,
        disk := diskWrite disk z (zipArchive (envSet env0 "ZIPOPT" "-D")
          (ora.traverse (normalizeTree fixedRepackTime
            (extractArchive ora.extractTime recs)))),
        written := [(z, zipArchive (envSet env0 "ZIPOPT" "-D")
          (ora.traverse (normalizeTree fixedRepackTime
            (extractArchive ora.extractTime recs))))],
        observations := [(z, copyFileStates recs
          (zipArchive (envSet env0 "ZIPOPT" "-D")
            (ora.traverse (normalizeTree fixedRepackTime
              (extractArchive ora.extractTime recs)))))],
        scratchRemoved := true,
        env := envSet env0 "ZIPOPT" "-D" } := by
  rw [repackFunctions, repackLoop, hr]
  simp [he, hf, repackLoop]

/-- Counterexample to C1: two archives holding exactly the same
`(relativePath, contentBytes)` entries - with different physical entry
orders and different original timestamps - repacked under the very same
environment, yield output archives that are not byte-identical: the code
never sorts entries, so the rebuilt order follows the zip tool's traversal
of the extracted tree, which here follows the original physical order. -/
theorem claim_C1_counterexample :
    (([recA, recB].map ZipRecord.logical).Perm
      ([⟨"b/file.txt", [3], false, 9⟩,
        ⟨"a.txt", [1, 2], false, 11⟩].map ZipRecord.logical))
    ∧ (repackFunctions oraOK [] [("p.zip", [recA, recB])]
          ["p.zip"]).disk.lookup "p.zip"
      ≠ (repackFunctions oraOK []
          [("p.zip", [⟨"b/file.txt", [3], false, 9⟩,
            ⟨"a.txt", [1, 2], false, 11⟩])] ["p.zip"]).disk.lookup "p.zip" := by
  decide

/-- Claim C1 as amended: repacking is deterministic given equal enumeration
order - for any two runs over archives with arbitrary original physical
entry ordering and arbitrary original timestamps, if the zip tool's walks
over the two normalized extracted trees coincide, the two output archives
at the target path are byte-identical.  (Timestamp variation is removed by
the engine; entry-order variation is not, so it must be assumed equal.) -/
theorem claim_C1_amended (ora1 ora2 : Oracle) (env1 env2 : Env)
    (disk1 disk2 : Disk) (z : String) (r1 r2 : List ZipRecord)
    (h1 : disk1.lookup z = some r1) (h2 : disk2.lookup z = some r2)
    (he1 : ora1.extractFails z = false) (he2 : ora2.extractFails z = false)
    (hf1 : ora1.zipFails z = false) (hf2 : ora2.zipFails z = false)
    (hwalk : ora1.traverse (normalizeTree fixedRepackTime
        (extractArchive ora1.extractTime r1))
      = ora2.traverse (normalizeTree fixedRepackTime
        (extractArchive ora2.extractTime r2))) :
    (repackFunctions ora1 env1 disk1 [z]).disk.lookup z =
      (repackFunctions ora2 env2 disk2 [z]).disk.lookup z := by
  rw [repackFunctions_single ora1 env1 disk1 z r1 h1 he1 hf1,
    repackFunctions_single ora2 env2 disk2 z r2 h2 he2 hf2]
  show (diskWrite disk1 z _).lookup z = (diskWrite disk2 z _).lookup z
  rw [lookup_diskWrite_self _ disk1 (by simp [h1]),
    lookup_diskWrite_self _ disk2 (by simp [h2]), hwalk,
    zipArchive_omit _ (zipOmitsDirs_envSet env1),
    zipArchive_omit _ (zipOmitsDirs_envSet env2)]

/-- Witness for the amended C1: the two counterexample archives (same
entries, different physical order and timestamps) do produce byte-identical
outputs once the second run's filesystem walk happens to visit the tree in
the compensating (reversed) order, making the two walks equal. -/
theorem claim_C1_witness :
    (repackFunctions oraOK [] [("p.zip", [recA, recB])]
        ["p.zip"]).disk.lookup "p.zip"
      = (repackFunctions oraRev []
          [("p.zip", [⟨"b/file.txt", [3], false, 9⟩,
            ⟨"a.txt", [1, 2], false, 11⟩])] ["p.zip"]).disk.lookup "p.zip" :=
  claim_C1_amended oraOK oraRev [] [] [("p.zip", [recA, recB])]
    [("p.zip", [⟨"b/file.txt", [3], false, 9⟩, ⟨"a.txt", [1, 2], false, 11⟩])]
    "p.zip" [recA, recB]
    [⟨"b/file.txt", [3], false, 9⟩, ⟨"a.txt", [1, 2], false, 11⟩]
    (by decide) (by decide) (by decide) (by decide) (by decide) (by decide)
    (by decide)

/-- Counterexample to C2: the rebuilt archive's entries are not sorted by
relative path - with entries `{"b/file.txt", "a.txt"}` and a filesystem walk
that yields `b/file.txt` first, the rebuilt entry order is
`["b/file.txt", "a.txt"]`, not the claimed `["a.txt", "b/file.txt"]`. -/
theorem claim_C2_counterexample :
    ((repackFunctions oraRev [] [("p.zip", [recA, recB])]
        ["p.zip"]).written.map fun kv => kv.2.map ZipRecord.relativePath)
      = [["b/file.txt", "a.txt"]]
    ∧ (["b/file.txt", "a.txt"] : List String) ≠ ["a.txt", "b/file.txt"] := by
  decide

/-- Claim C2 as amended: the rebuilt archive's entries appear in the zip
tool's filesystem traversal order with directory entries removed - the code
applies no sorting, so the entry order is exactly the walk order restricted
to files. -/
theorem claim_C2_amended (ora : Oracle) (env0 : Env) (disk : Disk)
    (z : String) (recs : List ZipRecord) (hr : disk.lookup z = some recs)
    (he : ora.extractFails z = false) (hf : ora.zipFails z = false) :
    (repackFunctions ora env0 disk [z]).written =
      [(z, zipArchive (envSet env0 "ZIPOPT" "-D")
        (ora.traverse (normalizeTree fixedRepackTime
          (extractArchive ora.extractTime recs))))]
    ∧ ∀ walk : List TreeNode,
        (zipArchive (envSet env0 "ZIPOPT" "-D") walk).map
            ZipRecord.relativePath
          = (walk.filter fun n => !n.isDirectory).map TreeNode.relativePath := by
  constructor
  · rw [repackFunctions_single ora env0 disk z recs hr he hf]
  · intro walk
    rw [zipArchive_omit _ (zipOmitsDirs_envSet env0), List.map_map]
    rfl

/-- Witness for the amended C2: in the counterexample run the single
rebuilt archive is exactly the zip of the reversed walk. -/
theorem claim_C2_witness :
    (repackFunctions oraRev [] [("p.zip", [recA, recB])] ["p.zip"]).written =
      [("p.zip", zipArchive (envSet [] "ZIPOPT" "-D")
        (oraRev.traverse (normalizeTree fixedRepackTime
          (extractArchive oraRev.extractTime [recA, recB]))))] :=
  (claim_C2_amended oraRev [] [("p.zip", [recA, recB])] "p.zip" [recA, recB]
    (by decide) (by decide) (by decide)).1

lemma repackLoop_throws (ora : Oracle) (env : Env) (z : String)
    (hz : ora.extractFails z = true) (disk : Disk) w o
    (rest : List String) :
    repackLoop ora env disk w o (z :: rest) =
      { outcome := .extractionThrown z, disk := disk, written := w.reverse,
        observations := o.reverse, scratchRemoved := false, env := env } := by
  rw [repackLoop]
  cases hlz : disk.lookup z with
  | none => rfl
  | some records => simp [hz]

/-- Counterexample to C4: in a batch of three archives where the second
fails extraction, the third is not processed at all - only the first is
rebuilt, the run aborts with the extraction error, and the third archive is
left untouched, contradicting "every other archive in the batch is still
processed". -/
theorem claim_C4_counterexample :
    ((repackFunctions oraExtractFailB [] diskABC
        ["a.zip", "b.zip", "c.zip"]).written.map Prod.fst = ["a.zip"])
    ∧ (repackFunctions oraExtractFailB [] diskABC
        ["a.zip", "b.zip", "c.zip"]).outcome = .extractionThrown "b.zip"
    ∧ (repackFunctions oraExtractFailB [] diskABC
        ["a.zip", "b.zip", "c.zip"]).disk.lookup "c.zip" = some [recF] := by
  decide

/-- Claim C4 as amended: when extraction of an archive fails, the run
aborts at that archive - every archive before it in the batch has been
rebuilt, and the failing archive and every archive after it are left
untouched on disk. -/
theorem claim_C4_amended (ora : Oracle) (env0 : Env) (disk : Disk)
    (pre : List String) (z : String) (post : List String)
    (hpre : ∀ p ∈ pre, ora.extractFails p = false ∧ ora.zipFails p = false ∧
      (disk.lookup p).isSome = true)
    (hz : ora.extractFails z = true) :
    (repackFunctions ora env0 disk (pre ++ z :: post)).outcome
      = .extractionThrown z
    ∧ (repackFunctions ora env0 disk (pre ++ z :: post)).written.map Prod.fst
      = pre
    ∧ ∀ q ∈ z :: post, q ∉ pre →
        (repackFunctions ora env0 disk (pre ++ z :: post)).disk.lookup q
          = disk.lookup q := by
  obtain ⟨disk', pw, po, heq, hmap, hunt, hsm⟩ :=
    repackLoop_front ora (envSet env0 "ZIPOPT" "-D") pre disk [] []
      (z :: post) hpre
  rw [repackFunctions, heq,
    repackLoop_throws ora (envSet env0 "ZIPOPT" "-D") z hz disk'
      (pw ++ []) (po ++ []) post]
  refine ⟨rfl, ?_, fun q _ hqp => hunt q hqp⟩
  simpa using hmap

/-- Witness for the amended C4: with the second of three archives failing
extraction, the first is rebuilt, the run aborts at the second, and the
second and third archives are untouched. -/
theorem claim_C4_witness :
    (repackFunctions oraExtractFailB [] diskABC
        (["a.zip"] ++ "b.zip" :: ["c.zip"])).outcome
      = .extractionThrown "b.zip"
    ∧ (repackFunctions oraExtractFailB [] diskABC
        (["a.zip"] ++ "b.zip" :: ["c.zip"])).written.map Prod.fst = ["a.zip"]
    ∧ ∀ q ∈ "b.zip" :: ["c.zip"], q ∉ ["a.zip"] →
        (repackFunctions oraExtractFailB [] diskABC
          (["a.zip"] ++ "b.zip" :: ["c.zip"])).disk.lookup q
          = diskABC.lookup q :=
  claim_C4_amended oraExtractFailB [] diskABC ["a.zip"] "b.zip" ["c.zip"]
    (by decide) (by decide)

/-- Counterexample to C6: the swap of the staging archive over the target
is not atomic and never uses a rename - it is an in-place `fs.copyFileSync`,
and during it a reader of the target path can observe a zero-length
(truncated) file, here after repacking an archive holding `a.txt`. -/
theorem claim_C6_counterexample :
    swapMethodUsed = SwapMethod.copyInPlace
    ∧ swapMethodUsed ≠ SwapMethod.rename
    ∧ (repackFunctions oraOK [] [("p.zip", [recA])] ["p.zip"]).observations
      = [("p.zip", copyFileStates [recA]
          [⟨"a.txt", [1, 2], false, fixedRepackTime⟩])]
    ∧ ([] : List ZipRecord) ∈ copyFileStates [recA]
        [⟨"a.txt", [1, 2], false, fixedRepackTime⟩] := by
  decide

/-- Claim C6 as amended: every swap the engine performs replaces the target
by an in-place copy (`fs.copyFileSync`; no rename is attempted), and during
every such swap a reader can observe a zero-length file at the target
path. -/
theorem claim_C6_amended (ora : Oracle) (env0 : Env) (disk : Disk)
    (zips : List String) (p : String) (states : List (List ZipRecord))
    (h : (p, states) ∈ (repackFunctions ora env0 disk zips).observations) :
    swapMethodUsed = SwapMethod.copyInPlace
    ∧ ([] : List ZipRecord) ∈ states
    ∧ ∃ old new, states = copyFileStates old new := by
  rw [repackFunctions] at h
  rcases repackLoop_obs_mem ora (envSet env0 "ZIPOPT" "-D") (p, states)
      zips disk [] [] h with h0 | ⟨old, new, hs⟩
  · simp at h0
  · have hstates : states = copyFileStates old new := hs
    refine ⟨rfl, ?_, old, new, hstates⟩
    rw [hstates]
    simp [copyFileStates]

/-- Witness for the amended C6: the swap recorded while repacking an
archive holding `a.txt` exposes the zero-length intermediate state. -/
theorem claim_C6_witness :
    swapMethodUsed = SwapMethod.copyInPlace
    ∧ ([] : List ZipRecord) ∈ copyFileStates [recA]
        [⟨"a.txt", [1, 2], false, fixedRepackTime⟩]
    ∧ ∃ old new, copyFileStates [recA]
        [⟨"a.txt", [1, 2], false, fixedRepackTime⟩] = copyFileStates old new :=
  claim_C6_amended oraOK [] [("p.zip", [recA])] ["p.zip"] "p.zip"
    (copyFileStates [recA] [⟨"a.txt", [1, 2], false, fixedRepackTime⟩])
    (by decide)

/-- Counterexample to C9: the metadata normalization step does not visit
only files - extracting an archive with the directory entry `d` and the
file `d/f.txt` gives a tree in which the glob matches the directory node
too (its directory flag is `true`), and the timestamp rewrite is applied to
it as well. -/
theorem claim_C9_counterexample :
    ((globStarMatches (extractArchive 555 [recD, recF])).map
        TreeNode.isDirectory) = [true, false]
    ∧ normalizeTree fixedRepackTime (extractArchive 555 [recD, recF])
      = [⟨"d", [], true, fixedRepackTime, fixedRepackTime⟩,
         ⟨"d/f.txt", [4], false, fixedRepackTime, fixedRepackTime⟩] := by
  decide

/-- Claim C9 as amended: the normalization step visits every node of the
extracted tree - files and directories alike - and sets both the
last-accessed and last-modified timestamps of each visited node to the one
fixed constant, leaving path, content and directory flag unchanged. -/
theorem claim_C9_amended (tree : List TreeNode) :
    globStarMatches tree = tree
    ∧ (∀ n ∈ normalizeTree fixedRepackTime tree,
        n.atime = fixedRepackTime ∧ n.mtime = fixedRepackTime)
    ∧ (normalizeTree fixedRepackTime tree).map
        (fun n => (n.relativePath, n.content, n.isDirectory))
      = tree.map fun n => (n.relativePath, n.content, n.isDirectory) := by
  refine ⟨rfl, ?_, ?_⟩
  · intro n hn
    simp only [normalizeTree, globStarMatches, List.mem_map] at hn
    obtain ⟨m, -, rfl⟩ := hn
    exact ⟨rfl, rfl⟩
  · rw [normalizeTree, globStarMatches, List.map_map]
    rfl

/-- Witness for the amended C9: the directory node of the counterexample
tree has both timestamps set to the fixed constant. -/
theorem claim_C9_witness :
    (⟨"d", [], true, fixedRepackTime, fixedRepackTime⟩ : TreeNode).atime
      = fixedRepackTime
    ∧ (⟨"d", [], true, fixedRepackTime, fixedRepackTime⟩ : TreeNode).mtime
      = fixedRepackTime :=
  (claim_C9_amended (extractArchive 555 [recD, recF])).2.1
    ⟨"d", [], true, fixedRepackTime, fixedRepackTime⟩ (by decide)

/-- Claim C8: the archive locator yields the union of the explicit
archive-path list and the glob-discovered paths, glob-discovered paths
already in the explicit list are excluded (so, for duplicate-free inputs,
no path is processed twice), the explicit paths come first in
caller-supplied order, and the discovered paths are appended in the order
the filesystem scan returned them. -/
theorem claim_C8 (explicitPaths globResults : List String) :
    (∀ p, p ∈ locatedArchives explicitPaths globResults ↔
      (p ∈ explicitPaths ∨ p ∈ globResults))
    ∧ (explicitPaths.Nodup → globResults.Nodup →
        (locatedArchives explicitPaths globResults).Nodup)
    ∧ (locatedArchives explicitPaths globResults).take explicitPaths.length
      = explicitPaths
    ∧ (otherZips explicitPaths globResults).Sublist globResults := by
  refine ⟨?_, ?_, ?_, ?_⟩
  · intro p
    simp only [locatedArchives, otherZips, List.mem_append, List.mem_filter,
      List.elem_eq_mem, Bool.not_eq_eq_eq_not,
      Bool.not_true, decide_eq_false_iff_not]
    by_cases hp : p ∈ explicitPaths <;> simp [hp]
  · intro h1 h2
    rw [locatedArchives, List.nodup_append]
    refine ⟨h1, h2.filter _, fun a ha haf => ?_⟩
    rw [otherZips, List.mem_filter] at haf
    have : a ∉ explicitPaths := by
      simpa [List.elem_eq_mem] using haf.2
    exact this ha
  · rw [locatedArchives]
    exact List.take_left explicitPaths _
  · rw [otherZips]
    exact List.filter_sublist globResults

/-- Witness for C8: with explicit list `[s.zip]` and glob results
`[s.zip, b.zip]`, the located archives contain `b.zip` and hold no
duplicates. -/
theorem claim_C8_witness :
    ("b.zip" ∈ locatedArchives ["s.zip"] ["s.zip", "b.zip"])
    ∧ (locatedArchives ["s.zip"] ["s.zip", "b.zip"]).Nodup :=
  ⟨((claim_C8 ["s.zip"] ["s.zip", "b.zip"]).1 "b.zip").mpr
      (Or.inr (by decide)),
    (claim_C8 ["s.zip"] ["s.zip", "b.zip"]).2.1 (by decide) (by decide)⟩

end IdempotencyHelper
